import Mathlib

/-!
Verification of the trading-session core of the LLMTradingAgents repository:
the simulated broker (ledger + fill engine), the session gate, and the
run-orchestrator control flow.

Modelling conventions:
* Python floats are modelled as exact rationals (`ℚ`).
* Python `Position` objects are mutable heap objects shared by reference
  (the broker's `positions` dict and any `Snapshot` hold references to the
  same objects).  We model this with an explicit heap: the broker state
  carries an association list from references (`Nat`) to `Position`
  records, and the `positions` dict maps tickers to references.
* Timestamps and the `fill_history` list are not modelled: no verified
  property depends on them.
* Number formatting in error messages (Python `:.2f` / `:.0%`) is
  abstracted by `toString` on rationals; the verified properties about
  messages only concern fixed substrings such as "cash" or "shares".
-/

namespace LLMTrading

/-- Order side, from `schemas.OrderSide`. -/
inductive OrderSide where
  | buy
  | sell
deriving DecidableEq, Repr

/-- A trading order, from `schemas.Order` (`order_type` is always MARKET
and is omitted). -/
structure Order where
  ticker : String
  side : OrderSide
  qty : ℤ
deriving DecidableEq, Repr

/-- A position in a single security, from `schemas.Position`. -/
structure Position where
  ticker : String
  qty : ℤ
  avg_cost : ℚ
  current_price : ℚ
deriving DecidableEq, Repr

/-- `Position.market_value` property. -/
def Position.market_value (p : Position) : ℚ :=
  p.qty * p.current_price

/-- A filled order, from `schemas.Fill` (timestamp omitted). -/
structure Fill where
  ticker : String
  side : OrderSide
  qty : ℤ
  fill_price : ℚ
  fees : ℚ
  slippage : ℚ
  notional : ℚ
deriving DecidableEq, Repr

/-- Fill engine configuration, from `sim/fills.FillEngine`. -/
structure FillEngine where
  slippage_bps : ℚ
  fee_bps : ℚ
deriving DecidableEq, Repr

/-- `FillEngine.compute_slippage`: positive for BUY, negative for SELL. -/
def FillEngine.compute_slippage (e : FillEngine) (base_price : ℚ) (side : OrderSide) : ℚ :=
  let slippage_amount := base_price * (e.slippage_bps / 10000)
  match side with
  | .buy => slippage_amount
  | .sell => -slippage_amount

/-- `FillEngine.compute_fill_price`: base price plus slippage. -/
def FillEngine.compute_fill_price (e : FillEngine) (base_price : ℚ) (side : OrderSide) : ℚ :=
  base_price + e.compute_slippage base_price side

/-- `FillEngine.compute_fees`: fees on the post-slippage notional. -/
def FillEngine.compute_fees (e : FillEngine) (notional : ℚ) : ℚ :=
  notional * (e.fee_bps / 10000)

/-- `FillEngine.fill_order`: build the `Fill` record for an order. -/
def FillEngine.fill_order (e : FillEngine) (o : Order) (base_price : ℚ) : Fill :=
  let fill_price := e.compute_fill_price base_price o.side
  let notional := o.qty * fill_price
  let fees := e.compute_fees notional
  let slippage := e.compute_slippage base_price o.side * o.qty
  { ticker := o.ticker, side := o.side, qty := o.qty, fill_price := fill_price,
    fees := fees, slippage := slippage, notional := notional }

/-! ### Heap and dictionary primitives

`pLookup`, `pErase` model the Python dict `self.positions` (ticker to
object reference); `hGet`, `hSet` model reading and in-place mutation of
`Position` objects on the Python heap. -/

/-- Dict lookup: reference of the first entry with the given ticker. -/
def pLookup : List (String × Nat) → String → Option Nat
  | [], _ => none
  | e :: rest, t => if e.1 = t then some e.2 else pLookup rest t

/-- Dict deletion (`del positions[ticker]`): drop the first entry with the
given ticker. -/
def pErase : List (String × Nat) → String → List (String × Nat)
  | [], _ => []
  | e :: rest, t => if e.1 = t then rest else e :: pErase rest t

/-- Heap read: the object stored at a reference. -/
def hGet : List (Nat × Position) → Nat → Option Position
  | [], _ => none
  | e :: rest, r => if e.1 = r then some e.2 else hGet rest r

/-- Heap write: in-place mutation of the object at a reference. -/
def hSet : List (Nat × Position) → Nat → Position → List (Nat × Position)
  | [], _, _ => []
  | e :: rest, r, p => if e.1 = r then (r, p) :: rest else e :: hSet rest r p

/-- Python `str.upper()` on a ticker (defined structurally over the
characters so that proofs can evaluate it). -/
def pyUpper (s : String) : String := ⟨s.data.map Char.toUpper⟩

/-- Price-map lookup (`prices.get(ticker)`), keys already upper-cased. -/
def pricesGet : List (String × ℚ) → String → Option ℚ
  | [], _ => none
  | e :: rest, t => if e.1 = t then some e.2 else pricesGet rest t

/-! ### SimBroker state -/

/-- Simulated broker state, from `sim/broker.SimBroker`.  `positions` is
the ticker-to-reference dict, `heap`/`next_ref` model the Python object
heap holding the `Position` objects. -/
structure SimBroker where
  cash : ℚ
  positions : List (String × Nat)
  heap : List (Nat × Position)
  next_ref : Nat
  realized_pnl : ℚ
  max_position_pct : ℚ
  fill_engine : FillEngine
deriving DecidableEq, Repr

/-- `SimBroker.get_position`: dict lookup on the upper-cased ticker,
dereferenced through the heap. -/
def SimBroker.get_position (b : SimBroker) (ticker : String) : Option Position :=
  (pLookup b.positions (pyUpper ticker)).bind (hGet b.heap)

/-- A portfolio snapshot, from `schemas.Snapshot` (timestamp omitted).
`position_refs` holds the references to the very same `Position` objects
the broker owns: `get_snapshot` copies the list, not the objects. -/
structure Snapshot where
  cash : ℚ
  position_refs : List Nat
  realized_pnl : ℚ
deriving DecidableEq, Repr

/-- `SimBroker.get_snapshot`: capture cash, realized pnl, and the list of
position object references (`list(self.positions.values())`). -/
def SimBroker.get_snapshot (b : SimBroker) : Snapshot :=
  { cash := b.cash, position_refs := b.positions.map (fun e => e.2),
    realized_pnl := b.realized_pnl }

/-- The position values an observer reads from a snapshot object,
dereferenced through the current heap. -/
def Snapshot.positions_view (s : Snapshot) (heap : List (Nat × Position)) :
    List (Option Position) :=
  s.position_refs.map (hGet heap)

/-- `Snapshot.positions_value` property, read through the given heap. -/
def Snapshot.positions_value_at (s : Snapshot) (heap : List (Nat × Position)) : ℚ :=
  ((s.position_refs.filterMap (hGet heap)).map Position.market_value).sum

/-- `Snapshot.equity` property, read through the given heap. -/
def Snapshot.equity_at (s : Snapshot) (heap : List (Nat × Position)) : ℚ :=
  s.cash + s.positions_value_at heap

/-- Total market value of the broker's positions (as summed by the
`positions_value` property of a snapshot taken now). -/
def SimBroker.positions_value (b : SimBroker) : ℚ :=
  b.get_snapshot.positions_value_at b.heap

/-- Current equity, as `self.get_snapshot().equity` computes it. -/
def SimBroker.equity (b : SimBroker) : ℚ :=
  b.get_snapshot.equity_at b.heap

/-- `SimBroker.update_prices` for one entry: refresh `current_price` on a
held position (in place), no-op for tickers not held. -/
def SimBroker.set_price (b : SimBroker) (ticker : String) (price : ℚ) : SimBroker :=
  match pLookup b.positions (pyUpper ticker) with
  | none => b
  | some r =>
    match hGet b.heap r with
    | none => b
    | some pos =>
      { b with heap := hSet b.heap r { pos with current_price := price } }

/-- `SimBroker.update_prices`: fold `set_price` over the price map. -/
def SimBroker.update_prices (b : SimBroker) (prices : List (String × ℚ)) : SimBroker :=
  prices.foldl (fun s e => s.set_price e.1 e.2) b

/-- `SimBroker.validate_order`: returns `(is_valid, error_message)`. -/
def SimBroker.validate_order (b : SimBroker) (o : Order) (reference_price : ℚ) :
    Bool × String :=
  let ticker := pyUpper o.ticker
  if o.qty ≤ 0 then
    (false, "Order quantity must be positive")
  else if reference_price ≤ 0 then
    (false, "Invalid reference price: " ++ toString reference_price)
  else if o.side = .buy then
    let estimated_cost := (o.qty : ℚ) * reference_price * (1005 / 1000)
    if b.cash < estimated_cost then
      (false, "Insufficient cash: need $" ++ toString estimated_cost ++
        ", have $" ++ toString b.cash)
    else
      let current_equity := b.equity
      if 0 < current_equity then
        let base_value := (o.qty : ℚ) * reference_price
        let new_position_value :=
          match b.get_position ticker with
          | some pos => base_value + pos.market_value
          | none => base_value
        let position_pct := new_position_value / (current_equity + estimated_cost)
        if b.max_position_pct < position_pct then
          (false, "Position would exceed max " ++ toString b.max_position_pct ++
            ": " ++ toString position_pct)
        else
          (true, "")
      else
        (true, "")
  else if o.side = .sell then
    match b.get_position ticker with
    | some pos =>
      if pos.qty < o.qty then
        (false, "Insufficient shares: need " ++ toString o.qty ++
          ", have " ++ toString pos.qty)
      else
        (true, "")
    | none =>
      (false, "Insufficient shares: need " ++ toString o.qty ++ ", have 0")
  else
    (true, "")

/-- `SimBroker._process_buy`: average into an existing position (in-place
object mutation) or allocate a new one, and pay `notional + fees`. -/
def SimBroker.process_buy (b : SimBroker) (ticker : String) (f : Fill) : SimBroker :=
  let total_cost := f.notional + f.fees
  match pLookup b.positions ticker with
  | some r =>
    match hGet b.heap r with
    | some pos =>
      let new_qty := pos.qty + f.qty
      let new_cost := (pos.avg_cost * pos.qty + f.fill_price * f.qty) / (new_qty : ℚ)
      { b with
        heap := hSet b.heap r
          { pos with qty := new_qty, avg_cost := new_cost, current_price := f.fill_price },
        cash := b.cash - total_cost }
    | none => b  -- unreachable: every dict reference is allocated
  | none =>
    let r := b.next_ref
    { b with
      heap := (r, { ticker := ticker, qty := f.qty, avg_cost := f.fill_price,
                    current_price := f.fill_price }) :: b.heap,
      next_ref := b.next_ref + 1,
      positions := b.positions ++ [(ticker, r)],
      cash := b.cash - total_cost }

/-- `SimBroker._process_sell`: realize pnl, receive `notional - fees`,
mutate the position object in place, and delete the dict entry once the
quantity reaches zero (the object itself stays on the heap). -/
def SimBroker.process_sell (b : SimBroker) (ticker : String) (f : Fill) : SimBroker :=
  match pLookup b.positions ticker with
  | some r =>
    match hGet b.heap r with
    | some pos =>
      let proceeds := f.notional - f.fees
      let cost_basis := pos.avg_cost * f.qty
      let realized := proceeds - cost_basis
      let new_qty := pos.qty - f.qty
      let heap1 := hSet b.heap r
        { pos with qty := new_qty, current_price := f.fill_price }
      let b1 := { b with realized_pnl := b.realized_pnl + realized,
                         cash := b.cash + proceeds, heap := heap1 }
      if new_qty ≤ 0 then { b1 with positions := pErase b1.positions ticker } else b1
    | none => b  -- unreachable: every dict reference is allocated
  | none => b  -- unreachable: validation guarantees the position exists

/-- `SimBroker.execute_order`: re-validate, compute the fill, apply it. -/
def SimBroker.execute_order (b : SimBroker) (o : Order) (fill_price : ℚ) :
    SimBroker × Option Fill :=
  let ticker := pyUpper o.ticker
  if (b.validate_order o fill_price).1 then
    let f := b.fill_engine.fill_order o fill_price
    if o.side = .buy then (b.process_buy ticker f, some f)
    else (b.process_sell ticker f, some f)
  else
    (b, none)

/-- `SimBroker.execute_orders`: execute a batch, skipping tickers with no
price; returns the new state and the successful fills in order. -/
def SimBroker.execute_orders (b : SimBroker) (orders : List Order)
    (prices : List (String × ℚ)) : SimBroker × List Fill :=
  match orders with
  | [] => (b, [])
  | o :: rest =>
    match pricesGet prices (pyUpper o.ticker) with
    | none => b.execute_orders rest prices
    | some price =>
      let (b1, f?) := b.execute_order o price
      let (b2, fs) := b1.execute_orders rest prices
      match f? with
      | some f => (b2, f :: fs)
      | none => (b2, fs)

/-! ### Spec-side characterisations and invariants -/

/-- Substring containment on strings (used for "reason contains ..."). -/
def containsSub (needle hay : String) : Prop :=
  needle.data <:+: hay.data

instance (needle hay : String) : Decidable (containsSub needle hay) :=
  List.decidableInfix needle.data hay.data

/-- Python membership test `ticker in self.positions` (after
upper-casing). -/
def SimBroker.contains_ticker (b : SimBroker) (ticker : String) : Bool :=
  (pLookup b.positions (pyUpper ticker)).isSome

/-- The held quantity of a ticker: the quantity of the position if held,
otherwise 0. -/
def SimBroker.held_qty (b : SimBroker) (ticker : String) : ℤ :=
  match b.get_position ticker with
  | some pos => pos.qty
  | none => 0

/-- The projected post-trade concentration of a BUY order, as the spec
describes it: projected position value divided by (current equity plus the
buffered cost). -/
def SimBroker.buy_concentration (b : SimBroker) (o : Order) (p : ℚ) : ℚ :=
  let estimated_cost := (o.qty : ℚ) * p * (1005 / 1000)
  let base_value := (o.qty : ℚ) * p
  let new_position_value :=
    match b.get_position o.ticker with
    | some pos => base_value + pos.market_value
    | none => base_value
  new_position_value / (b.equity + estimated_cost)

/-- The configurations for which the 0.5 percent validation buffer covers
slippage plus fees (this includes the defaults of 10 bps each). -/
def FeeOk (e : FillEngine) : Prop :=
  0 ≤ e.slippage_bps ∧ 0 ≤ e.fee_bps ∧
    (1 + e.slippage_bps / 10000) * (1 + e.fee_bps / 10000) ≤ 1005 / 1000

/-- Well-formedness of a broker state: the ledger invariants of the spec
(nonnegative cash, strictly positive position quantities, nonnegative
costs and prices) together with the representation invariants of the
dict/heap encoding (distinct dict keys, distinct references, allocated
references below the allocation counter). -/
structure LedgerWF (b : SimBroker) : Prop where
  cash_nonneg : 0 ≤ b.cash
  keys_nodup : (b.positions.map Prod.fst).Nodup
  refs_nodup : (b.positions.map Prod.snd).Nodup
  heap_nodup : (b.heap.map Prod.fst).Nodup
  heap_bounded : ∀ k ∈ b.heap.map Prod.fst, k < b.next_ref
  pos_ok : ∀ e ∈ b.positions, ∃ q, hGet b.heap e.2 = some q ∧
    0 < q.qty ∧ 0 ≤ q.avg_cost ∧ 0 ≤ q.current_price

/-! ### Concrete broker states used as counterexample / failing inputs -/

/-- A broker holding 10 AAPL at average cost 100 (current price 100), with
zero slippage and fees. -/
def brokerAliasEx : SimBroker :=
  { cash := 0,
    positions := [("AAPL", 0)],
    heap := [(0, { ticker := "AAPL", qty := 10, avg_cost := 100, current_price := 100 })],
    next_ref := 1, realized_pnl := 0, max_position_pct := 25 / 100,
    fill_engine := { slippage_bps := 0, fee_bps := 0 } }

/-- A SELL order for the full 10-share AAPL position. -/
def sellAllEx : Order := { ticker := "AAPL", side := .sell, qty := 10 }

/-- A BUY order for 10 shares of AAPL. -/
def buyTenEx : Order := { ticker := "AAPL", side := .buy, qty := 10 }

/-- A broker with cash 1005 and a slippage/fee configuration
(100 bps each) the 0.5 percent validation buffer does not cover. -/
def brokerBufferEx : SimBroker :=
  { cash := 1005, positions := [], heap := [], next_ref := 0, realized_pnl := 0,
    max_position_pct := 1,
    fill_engine := { slippage_bps := 100, fee_bps := 100 } }

/-- Same portfolio as `brokerAliasEx` but with 10 bps fees, exhibiting the
fee term in realized pnl. -/
def brokerFeeEx : SimBroker :=
  { brokerAliasEx with fill_engine := { slippage_bps := 0, fee_bps := 10 } }

/-- A fresh broker with 100000 cash and no slippage or fees. -/
def brokerAvgEx : SimBroker :=
  { cash := 100000, positions := [], heap := [], next_ref := 0, realized_pnl := 0,
    max_position_pct := 25 / 100,
    fill_engine := { slippage_bps := 0, fee_bps := 0 } }

/-- The state of `brokerAvgEx` after buying 10 AAPL at 100. -/
def brokerAvgEx1 : SimBroker :=
  { cash := 99000, positions := [("AAPL", 0)],
    heap := [(0, { ticker := "AAPL", qty := 10, avg_cost := 100, current_price := 100 })],
    next_ref := 1, realized_pnl := 0, max_position_pct := 25 / 100,
    fill_engine := { slippage_bps := 0, fee_bps := 0 } }

/-- The state of `brokerAvgEx1` after buying 10 more AAPL at 120. -/
def brokerAvgEx2 : SimBroker :=
  { cash := 97800, positions := [("AAPL", 0)],
    heap := [(0, { ticker := "AAPL", qty := 20, avg_cost := 110, current_price := 120 })],
    next_ref := 1, realized_pnl := 0, max_position_pct := 25 / 100,
    fill_engine := { slippage_bps := 0, fee_bps := 0 } }


/-! ### Run orchestrator (arena/runner.py)

The orchestrator is modelled over an environment that records what the
pipeline reads from its collaborators (storage counters and the LLM
clients); storage writes and logged LLM calls are returned explicitly so
that claims about side effects can be stated. -/

/-- The result of one agent attempt (`AgentResult` in `agents/base.py`):
parsed output (present on success), the raw response text, the error. -/
structure AgentResultE (α : Type) where
  success : Bool
  output : Option α
  raw_response : String
  error : Option String

/-- A logged LLM call (`schemas.LLMCall`, the fields the claims use). -/
structure LLMCallRec where
  call_type : String
  success : Bool
  raw_response : String
  error : Option String

/-- The retry loop of `_invoke_with_retry`: run attempts starting at index
`i` with `fuel` retries left; return the final result and every attempt in
order (stopping at the first success). -/
def retrySeq (attempts : Nat → AgentResultE α) :
    Nat → Nat → AgentResultE α × List (AgentResultE α)
  | i, 0 => (attempts i, [attempts i])
  | i, fuel + 1 =>
    let r := attempts i
    if r.success then (r, [r])
    else
      let (last, l) := retrySeq attempts (i + 1) fuel
      (last, r :: l)

/-- `_invoke_with_retry` with the default `max_retries = 2`: every
attempt, success or failure, is appended to the call log under the
agent call type ("strategist" or "risk_guard"). -/
def invoke_with_retry (callType : String) (attempts : Nat → AgentResultE α) :
    AgentResultE α × List LLMCallRec :=
  let (last, l) := retrySeq attempts 0 2
  (last, l.map fun a =>
    { call_type := callType, success := a.success,
      raw_response := a.raw_response, error := a.error })

/-- The `LLMCall` record logged for one attempt. -/
def toCallRec (ct : String) (a : AgentResultE α) : LLMCallRec :=
  { call_type := ct, success := a.success, raw_response := a.raw_response,
    error := a.error }

/-- Environment of one `_repair_json_parse` call: the outcome of the
repair LLM call and of `model_validate_json` on its content. -/
structure RepairEnv (α : Type) where
  llm_success : Bool
  content : String
  error : Option String
  parsed : Option α

/-- `_repair_json_parse`: issues the repair call unconditionally (logged
with call type "repair"); returns the parsed object when the call
succeeded and its content parsed, else `none` (a parse failure is caught,
not raised). -/
def repair_json_parse (re : RepairEnv α) : Option α × LLMCallRec :=
  (if re.llm_success then re.parsed else none,
    { call_type := "repair", success := re.llm_success,
      raw_response := re.content, error := re.error })

/-- Environment of one agent stage: attempt outcomes and repair outcome. -/
structure StageEnv (α : Type) where
  attempts : Nat → AgentResultE α
  repair : RepairEnv α

/-- One agent stage of `_run_competitor` (runner.py lines 419-448 for the
Strategist, 462-496 for the RiskGuard): invoke with retries; on success
take the typed output; on failure record the error string and attempt
repair.  Returns the stage output, the logged calls, and the recorded
errors. -/
def run_stage (callType failPrefix : String) (se : StageEnv α) :
    Option α × List LLMCallRec × List String :=
  let (res, calls) := invoke_with_retry callType se.attempts
  if res.success then (res.output, calls, [])
  else
    let errs := [failPrefix ++ res.error.getD "Unknown error"]
    let (out, rcall) := repair_json_parse se.repair
    (out, calls ++ [rcall], errs)

/-- A trade plan (`schemas.TradePlan`): only the orders matter to the
orchestrator control flow. -/
structure TradePlanM where
  orders : List Order

/-- A storage write performed by a competitor pipeline. -/
inductive StoreEvent where
  | save_trade
  | save_snapshot
  | save_run_log
  | increment_calls (n : Nat)
deriving DecidableEq, Repr

/-- Environment of `_run_competitor`: everything the pipeline reads from
storage and the LLM collaborators.  `daily_count_recheck` is what the
second `get_daily_call_count` query (line 457) returns; it can differ
from `daily_count` only when another process increments the shared
provider counter between the two queries. -/
structure RunEnv where
  has_run_today : Bool
  daily_count : Nat
  daily_count_recheck : Nat
  limit : Nat
  client_ok : Bool
  strat : StageEnv Unit
  risk : StageEnv TradePlanM
  prices : List (String × ℚ)

/-- The per-competitor result shape of `run_session`. -/
inductive CompetitorOutcome where
  | skipped (reason : String)
  | errorDict (msg : String)
  | normal (errors : List String) (fills : List Fill)
      (equity_before equity_after : ℚ)
deriving DecidableEq, Repr

/-- The Python error message of the unbound-local crash at runner.py line
477 when the pre-RiskGuard budget re-check fails. -/
def unboundMsg : String :=
  "UnboundLocalError: local variable risk_guard_result referenced before assignment"

/-- The order validation loop of `_run_competitor` (lines 505-523): skip
orders whose ticker has no price (recording an error), validate the rest
against the broker, keep the valid ones. -/
def validate_orders_loop (b : SimBroker) (prices : List (String × ℚ)) :
    List Order → List Order × List String
  | [] => ([], [])
  | o :: rest =>
    let (vs, es) := validate_orders_loop b prices rest
    match pricesGet prices (pyUpper o.ticker) with
    | none =>
      (vs, ("No price available for " ++ pyUpper o.ticker ++ ", skipping order") :: es)
    | some price =>
      let (ok, err) := b.validate_order o price
      if ok then (o :: vs, es) else (vs, ("Order rejected: " ++ err) :: es)

/-- The tail of `_run_competitor` after the agent stages (lines 500-583):
validate and execute the plan orders, save each fill as a trade, snapshot
after, and persist counter/snapshot/run-log unless dry-run. -/
def finish_run (env : RunEnv) (broker1 : SimBroker) (snapshot_before : Snapshot)
    (trade_plan : Option TradePlanM) (calls : List LLMCallRec)
    (errs : List String) (dryRun : Bool) :
    CompetitorOutcome × List LLMCallRec × List StoreEvent × SimBroker :=
  let plan_orders := (trade_plan.map TradePlanM.orders).getD []
  let (valid_orders, verrs) := validate_orders_loop broker1 env.prices plan_orders
  let (broker2, fills) :=
    if valid_orders ≠ [] ∧ dryRun = false then
      broker1.execute_orders valid_orders env.prices
    else (broker1, [])
  let trade_events :=
    if valid_orders ≠ [] ∧ dryRun = false then
      fills.map (fun _ => StoreEvent.save_trade)
    else []
  let broker3 := broker2.update_prices env.prices
  let snapshot_after := broker3.get_snapshot
  let persist_events :=
    if dryRun = false then
      [StoreEvent.increment_calls calls.length, StoreEvent.save_snapshot,
        StoreEvent.save_run_log]
    else []
  (CompetitorOutcome.normal (errs ++ verrs) fills
      (snapshot_before.equity_at broker3.heap)
      (snapshot_after.equity_at broker3.heap),
    calls, trade_events ++ persist_events, broker3)

/-- `_run_competitor` (runner.py lines 363-583).  The unbound read of
`risk_guard_result` at line 477, reached when the pre-RiskGuard budget
re-check fails, is modelled as a raised exception. -/
def run_competitor_inner (env : RunEnv) (broker : SimBroker) (dryRun : Bool) :
    Except String
      (CompetitorOutcome × List LLMCallRec × List StoreEvent × SimBroker) :=
  if dryRun = false ∧ env.has_run_today = true then
    .ok (.skipped "already_ran", [], [], broker)
  else if env.limit < env.daily_count + 2 then
    .ok (.skipped "call_limit", [], [], broker)
  else
    let broker1 := broker.update_prices env.prices
    let snapshot_before := broker1.get_snapshot
    if env.client_ok = false then
      .ok (.errorDict "Failed to create LLM client", [], [], broker1)
    else
      let stage1 := run_stage "strategist" "Strategist call failed: " env.strat
      match stage1.1 with
      | some _ =>
        if env.limit < env.daily_count_recheck + 1 then
          -- "Daily call limit reached before RiskGuard" is appended to the
          -- errors, risk_guard_result is never assigned, and the dedented
          -- `if risk_guard_result.success` at line 477 then raises
          .error unboundMsg
        else
          let stage2 := run_stage "risk_guard" "RiskGuard call failed: " env.risk
          .ok (finish_run env broker1 snapshot_before stage2.1
            (stage1.2.1 ++ stage2.2.1) (stage1.2.2 ++ stage2.2.2) dryRun)
      | none =>
        .ok (finish_run env broker1 snapshot_before none stage1.2.1
          (stage1.2.2 ++ ["Skipping RiskGuard: No strategist proposal available"])
          dryRun)

/-- The per-competitor try/except of `run_session` (lines 172-185): an
exception raised by the pipeline is caught and recorded as an error dict
for that competitor. -/
def run_competitor (env : RunEnv) (broker : SimBroker) (dryRun : Bool) :
    CompetitorOutcome × List LLMCallRec × List StoreEvent × SimBroker :=
  match run_competitor_inner env broker dryRun with
  | .ok x => x
  | .error e => (.errorDict e, [], [], broker)

/-- A stage environment whose first attempt succeeds. -/
def stageOkUnit : StageEnv Unit :=
  { attempts := fun _ =>
      { success := true, output := some (), raw_response := "ok", error := none },
    repair := { llm_success := true, content := "ok", error := none,
                parsed := some () } }

/-- A stage environment for the RiskGuard whose first attempt succeeds
with a HOLD plan. -/
def stageOkPlan : StageEnv TradePlanM :=
  { attempts := fun _ =>
      { success := true, output := some { orders := [] },
        raw_response := "ok", error := none },
    repair := { llm_success := true, content := "ok", error := none,
                parsed := some { orders := [] } } }

/-- A strategist stage whose attempts all fail with an empty raw
response. -/
def stageEmptyFail : StageEnv Unit :=
  { attempts := fun _ =>
      { success := false, output := none, raw_response := "",
        error := some "Empty response from LLM" },
    repair := { llm_success := false, content := "", error := some "timeout",
                parsed := none } }

/-- Environment for the budget-recheck failing input: a prior OPEN
session consumed the whole budget concurrently, so the first check sees
98 + 2 <= 100 but the re-check sees 100 + 1 > 100. -/
def envBudget : RunEnv :=
  { has_run_today := false, daily_count := 98, daily_count_recheck := 100,
    limit := 100, client_ok := true, strat := stageOkUnit, risk := stageOkPlan,
    prices := [] }

/-- Environment for the idempotency claim: a run log already exists. -/
def envAlreadyRan : RunEnv :=
  { has_run_today := true, daily_count := 0, daily_count_recheck := 0,
    limit := 100, client_ok := true, strat := stageOkUnit, risk := stageOkPlan,
    prices := [] }


/-! ### Session gate (arena/gate.py)

Times are minutes since midnight of the current day; the timezone
conversion of the crypto path is elided (a single timezone), and crypto
session times are pre-parsed from their HH:MM strings. -/

/-- Market configuration fields used by the gate. -/
structure MarketConf where
  mtype : String
  session_times_cfg : List Int

/-- Environment of `should_run`: the market-calendar adapter answers, the
configured competitors, and the storage predicate (date fixed to today).
`has_run_today` takes the competitor id and the session type. -/
structure GateEnv where
  is_trading_day : Bool
  session_times : Option (Int × Int)
  competitors : List String
  has_run_today : String → String → Bool

/-- The already-ran backstop loop (gate.py lines 96-99 and 135-138): the
message for the first configured competitor with a run log today for this
session type, whichever competitor that is. -/
def check_already_ran (env : GateEnv) (session_type : String) : Option String :=
  env.competitors.findSome? fun c =>
    if env.has_run_today c session_type then
      some ("Already ran " ++ session_type ++ " for " ++ c ++ " today")
    else none

/-- `_check_crypto_session` (gate.py lines 103-140): within 10 minutes of
the configured session time for this session type, then the already-ran
backstop.  The result `none` models the IndexError Python raises when the
session-times list is configured empty. -/
def check_crypto_session (env : GateEnv) (mkt : MarketConf)
    (session_type : String) (now : Int) : Option (Bool × String) :=
  let idx0 : Nat := if session_type = "OPEN" then 0 else 1
  let idx : Nat := if mkt.session_times_cfg.length ≤ idx0 then 0 else idx0
  match mkt.session_times_cfg.get? idx with
  | none => none
  | some target =>
    if 10 < (now - target).natAbs then
      some (false, "Outside crypto " ++ session_type ++ " window")
    else
      match check_already_ran env session_type with
      | some msg => some (false, msg)
      | none => some (true, "OK")

/-- `should_run` (gate.py lines 38-101): trading-day check, session-times
check, OPEN window [open - 5, open + 30] or CLOSE window
[close - 30, close + 5], then the already-ran backstop. -/
def should_run (env : GateEnv) (mkt : MarketConf) (session_type : String)
    (now : Int) : Option (Bool × String) :=
  if mkt.mtype ≠ "crypto" ∧ env.is_trading_day = false then
    some (false, "Not a trading day for " ++ mkt.mtype)
  else if env.session_times = none ∧ mkt.mtype ≠ "crypto" then
    some (false, "Could not determine session times")
  else if mkt.mtype = "crypto" then
    check_crypto_session env mkt session_type now
  else
    match env.session_times with
    | none => none
    | some (open_time, close_time) =>
      if session_type = "OPEN" then
        if ¬ (open_time - 5 ≤ now ∧ now ≤ open_time + 30) then
          some (false, "Outside OPEN window (" ++ toString open_time ++ ")")
        else
          match check_already_ran env session_type with
          | some msg => some (false, msg)
          | none => some (true, "OK")
      else if session_type = "CLOSE" then
        if ¬ (close_time - 30 ≤ now ∧ now ≤ close_time + 5) then
          some (false, "Outside CLOSE window (" ++ toString close_time ++ ")")
        else
          match check_already_ran env session_type with
          | some msg => some (false, msg)
          | none => some (true, "OK")
      else
        match check_already_ran env session_type with
        | some msg => some (false, msg)
        | none => some (true, "OK")

/-- A non-24/7 market on a trading day with open 09:30 (570) and close
16:00 (960), one configured competitor, no prior run. -/
def gateEnvEx : GateEnv :=
  { is_trading_day := true, session_times := some (570, 960),
    competitors := ["comp1"], has_run_today := fun _ _ => false }

/-- The same gate environment after some competitor has run today. -/
def gateEnvRanEx : GateEnv :=
  { is_trading_day := true, session_times := some (570, 960),
    competitors := ["comp1"], has_run_today := fun _ _ => true }

/-- A non-crypto market configuration. -/
def equityMktEx : MarketConf := { mtype := "us_equity", session_times_cfg := [] }

/-! ## Theorems -/

/-- Evaluation fact: upper-casing the literal ticker. -/
theorem pyUpper_AAPL : pyUpper "AAPL" = "AAPL" := rfl

/-- The two order sides are distinct constructors. -/
theorem side_sell_ne_buy : ¬ (OrderSide.sell = OrderSide.buy) := fun h => nomatch h

/-- The two order sides are distinct constructors (other orientation). -/
theorem side_buy_ne_sell : ¬ (OrderSide.buy = OrderSide.sell) := fun h => nomatch h

/-! ### Toolkit: characters and upper-casing -/

/-- `Char.ofNat` round-trips on valid codepoints. -/
theorem toNat_ofNat_valid (n : Nat) (h : n.isValidChar) : (Char.ofNat n).toNat = n := by
  rw [Char.ofNat, dif_pos h]; rfl

/-- `Char.toUpper` is idempotent. -/
theorem char_toUpper_idem (c : Char) : c.toUpper.toUpper = c.toUpper := by
  unfold Char.toUpper
  by_cases h : 97 ≤ c.toNat ∧ c.toNat ≤ 122
  · rw [if_pos h]
    have hv : (c.toNat - 32).isValidChar := Or.inl (by omega)
    rw [toNat_ofNat_valid _ hv, if_neg (by omega)]
  · rw [if_neg h, if_neg h]

/-- `pyUpper` is idempotent (as Python upper-casing is). -/
theorem pyUpper_idem (s : String) : pyUpper (pyUpper s) = pyUpper s := by
  simp [pyUpper, List.map_map, Function.comp_def, char_toUpper_idem]

/-! ### Toolkit: dict and heap lemmas -/

/-- `pLookup` misses exactly when no entry has the key. -/
theorem pLookup_eq_none {m : List (String × Nat)} {t : String} :
    pLookup m t = none ↔ ∀ e ∈ m, e.1 ≠ t := by
  induction m with
  | nil => simp [pLookup]
  | cons e rest ih =>
    by_cases h : e.1 = t <;> simp [pLookup, h, ih]

/-- A successful `pLookup` exhibits a dict entry. -/
theorem pLookup_mem {m : List (String × Nat)} {t : String} {r : Nat}
    (h : pLookup m t = some r) : (t, r) ∈ m := by
  induction m with
  | nil => simp [pLookup] at h
  | cons e rest ih =>
    rw [pLookup] at h
    by_cases he : e.1 = t
    · rw [if_pos he] at h
      have hb : e.2 = r := Option.some.inj h
      have : e = (t, r) := by
        obtain ⟨a, b⟩ := e
        simp only at he hb
        rw [he, hb]
      rw [← this]
      exact List.mem_cons_self e rest
    · rw [if_neg he] at h
      exact List.mem_cons_of_mem _ (ih h)

/-- Appending a fresh entry makes it visible to `pLookup`. -/
theorem pLookup_append_of_none {m : List (String × Nat)} {t : String} {r : Nat}
    (h : pLookup m t = none) : pLookup (m ++ [(t, r)]) t = some r := by
  induction m with
  | nil => simp [pLookup]
  | cons e rest ih =>
    by_cases he : e.1 = t
    · simp [pLookup, he] at h
    · simp [pLookup, he] at h ⊢
      exact ih h

/-- Appending an entry for a different key does not change `pLookup`. -/
theorem pLookup_append_ne {m : List (String × Nat)} {t s : String} {r : Nat}
    (h : s ≠ t) : pLookup (m ++ [(s, r)]) t = pLookup m t := by
  induction m with
  | nil => simp [pLookup, h]
  | cons e rest ih =>
    by_cases he : e.1 = t <;> simp [pLookup, he, ih]

/-- `pErase` gives a sublist. -/
theorem pErase_sublist (m : List (String × Nat)) (t : String) :
    (pErase m t).Sublist m := by
  induction m with
  | nil => simp [pErase]
  | cons e rest ih =>
    by_cases he : e.1 = t
    · simp [pErase, he]
    · simpa [pErase, he] using ih.cons₂ e

/-- Members surviving `pErase` under distinct keys: still members, and not
carrying the erased key. -/
theorem mem_pErase {m : List (String × Nat)} {t : String} {e : String × Nat}
    (hk : (m.map Prod.fst).Nodup) (h : e ∈ pErase m t) : e ∈ m ∧ e.1 ≠ t := by
  induction m with
  | nil => simp [pErase] at h
  | cons a rest ih =>
    simp only [List.map_cons, List.nodup_cons] at hk
    by_cases ha : a.1 = t
    · rw [pErase, if_pos ha] at h
      refine ⟨List.mem_cons_of_mem _ h, fun het => ?_⟩
      have hm : e.1 ∈ rest.map Prod.fst := List.mem_map_of_mem Prod.fst h
      rw [het, ← ha] at hm
      exact hk.1 hm
    · rw [pErase, if_neg ha] at h
      rcases List.mem_cons.mp h with h1 | h1
      · subst h1
        exact ⟨List.mem_cons_self _ _, ha⟩
      · rcases ih hk.2 h1 with ⟨m1, m2⟩
        exact ⟨List.mem_cons_of_mem _ m1, m2⟩

/-- After erasing a key (keys distinct), looking it up misses. -/
theorem pLookup_pErase_self {m : List (String × Nat)} {t : String}
    (hk : (m.map Prod.fst).Nodup) : pLookup (pErase m t) t = none := by
  rw [pLookup_eq_none]
  intro e he
  exact (mem_pErase hk he).2

/-- A successful `hGet` exhibits a heap entry. -/
theorem hGet_mem {hp : List (Nat × Position)} {r : Nat} {p : Position}
    (h : hGet hp r = some p) : (r, p) ∈ hp := by
  induction hp with
  | nil => simp [hGet] at h
  | cons e rest ih =>
    rw [hGet] at h
    by_cases he : e.1 = r
    · rw [if_pos he] at h
      have hb : e.2 = p := Option.some.inj h
      have : e = (r, p) := by
        obtain ⟨a, b⟩ := e
        simp only at he hb
        rw [he, hb]
      rw [← this]
      exact List.mem_cons_self e rest
    · rw [if_neg he] at h
      exact List.mem_cons_of_mem _ (ih h)

/-- Reading back an in-place write at the same reference. -/
theorem hGet_hSet_self {hp : List (Nat × Position)} {r : Nat} {p q : Position}
    (h : hGet hp r = some q) : hGet (hSet hp r p) r = some p := by
  induction hp with
  | nil => simp [hGet] at h
  | cons e rest ih =>
    by_cases he : e.1 = r
    · simp [hGet, hSet, he]
    · simp [hGet, hSet, he] at h ⊢
      exact ih h

/-- An in-place write does not affect other references. -/
theorem hGet_hSet_ne {hp : List (Nat × Position)} {r r2 : Nat} {p : Position}
    (h : r2 ≠ r) : hGet (hSet hp r p) r2 = hGet hp r2 := by
  induction hp with
  | nil => simp [hGet, hSet]
  | cons e rest ih =>
    by_cases he : e.1 = r
    · rw [hSet, if_pos he, hGet, hGet]
      have h1 : ¬ ((r, p).1 = r2) := by simp only; omega
      have h2 : ¬ (e.1 = r2) := by rw [he]; omega
      rw [if_neg h1, if_neg h2]
    · rw [hSet, if_neg he, hGet, hGet]
      by_cases he2 : e.1 = r2
      · rw [if_pos he2, if_pos he2]
      · rw [if_neg he2, if_neg he2, ih]

/-- An in-place write keeps the heap keys unchanged. -/
theorem hSet_map_fst (hp : List (Nat × Position)) (r : Nat) (p : Position) :
    (hSet hp r p).map Prod.fst = hp.map Prod.fst := by
  induction hp with
  | nil => simp [hSet]
  | cons e rest ih =>
    by_cases he : e.1 = r <;> simp [hSet, he, ih]

/-- A reference that misses every heap key reads as absent. -/
theorem hGet_eq_none {hp : List (Nat × Position)} {r : Nat}
    (h : ∀ k ∈ hp.map Prod.fst, k ≠ r) : hGet hp r = none := by
  induction hp with
  | nil => simp [hGet]
  | cons e rest ih =>
    simp only [List.map_cons, List.mem_cons] at h
    rw [hGet, if_neg (h e.1 (Or.inl rfl))]
    exact ih fun k hk => h k (Or.inr hk)

/-- Reading through a freshly consed heap cell at its own reference. -/
theorem hGet_cons_self (hp : List (Nat × Position)) (r : Nat) (p : Position) :
    hGet ((r, p) :: hp) r = some p := by
  simp [hGet]

/-- Reading through a freshly consed heap cell at another reference. -/
theorem hGet_cons_ne (hp : List (Nat × Position)) {r r2 : Nat} (p : Position)
    (h : r ≠ r2) : hGet ((r, p) :: hp) r2 = hGet hp r2 := by
  simp [hGet, h]

/-! ### Toolkit: substring containment -/

/-- Containment transfers along a string prefix. -/
theorem containsSub_append_left {needle a : String} (b : String)
    (h : containsSub needle a) : containsSub needle (a ++ b) := by
  unfold containsSub at h ⊢
  rw [String.data_append]
  exact h.trans (List.prefix_append a.data b.data).isInfix

/-- C2: the code contradicts the claim.  Taking a snapshot and then
executing a full-close SELL on the same broker changes the values read
from the previously captured snapshot position: at capture time the
captured AAPL position reads qty 10 / avg cost 100 / price 100, but after
`execute_order` the same snapshot reads qty 0 / price 110, because the
snapshot shares the `Position` objects with the ledger. -/
theorem snapshot_position_mutates_after_sell :
    brokerAliasEx.get_snapshot.positions_view brokerAliasEx.heap =
      [some { ticker := "AAPL", qty := 10, avg_cost := 100, current_price := 100 }] ∧
    brokerAliasEx.get_snapshot.positions_view
        ((brokerAliasEx.execute_order sellAllEx 110).1).heap =
      [some { ticker := "AAPL", qty := 0, avg_cost := 100, current_price := 110 }] := by
  refine ⟨by rfl, ?_⟩
  norm_num [brokerAliasEx, sellAllEx, SimBroker.execute_order, SimBroker.validate_order,
    SimBroker.get_position, SimBroker.process_sell, SimBroker.get_snapshot,
    Snapshot.positions_view, SimBroker.equity, Snapshot.equity_at, Snapshot.positions_value_at,
    FillEngine.fill_order, FillEngine.compute_fill_price, FillEngine.compute_slippage,
    FillEngine.compute_fees, pLookup, hGet, hSet, pErase, pyUpper_AAPL, side_sell_ne_buy, side_buy_ne_sell]

/-- C3 counterexample: with slippage 100 bps and fees 100 bps, a BUY that
passes validation (cash 1005 covers the 0.5 percent buffered estimate of
1005) drives cash negative after execution. -/
theorem cash_negative_with_large_fees :
    (brokerBufferEx.execute_order buyTenEx 100).1.cash < 0 := by
  have h : (brokerBufferEx.execute_order buyTenEx 100).1.cash = -151 / 10 := by
    norm_num [brokerBufferEx, buyTenEx, SimBroker.execute_order, SimBroker.validate_order,
      SimBroker.get_position, SimBroker.process_buy, SimBroker.get_snapshot,
      SimBroker.equity, Snapshot.equity_at, Snapshot.positions_value_at,
      FillEngine.fill_order, FillEngine.compute_fill_price, FillEngine.compute_slippage,
      FillEngine.compute_fees, pLookup, hGet, hSet, pErase, pyUpper_AAPL, side_sell_ne_buy, side_buy_ne_sell]
  rw [h]; norm_num

/-- C6 counterexample: with 10 bps fees, selling the whole 10-share AAPL
position (avg cost 100) at fill price 110 adds 98.9 to realized pnl, not
the 100 = qty times (fill price minus avg cost) the claim states: the
fees are subtracted as well. -/
theorem full_close_pnl_includes_fees :
    (brokerFeeEx.execute_order sellAllEx 110).1.realized_pnl ≠
      (10 : ℚ) * (110 - 100) := by
  have h : (brokerFeeEx.execute_order sellAllEx 110).1.realized_pnl = 989 / 10 := by
    norm_num [brokerFeeEx, brokerAliasEx, sellAllEx, SimBroker.execute_order,
      SimBroker.validate_order, SimBroker.get_position, SimBroker.process_sell,
      SimBroker.get_snapshot, SimBroker.equity, Snapshot.equity_at,
      Snapshot.positions_value_at, FillEngine.fill_order, FillEngine.compute_fill_price,
      FillEngine.compute_slippage, FillEngine.compute_fees, pLookup, hGet, hSet, pErase,
      pyUpper_AAPL, side_sell_ne_buy, side_buy_ne_sell]
  rw [h]; norm_num


/-! ### Toolkit: validate_order characterisation -/

/-- `get_position` is insensitive to pre-upper-casing its argument. -/
theorem get_position_pyUpper (b : SimBroker) (t : String) :
    b.get_position (pyUpper t) = b.get_position t := by
  simp [SimBroker.get_position, pyUpper_idem]

/-- A validated order has positive quantity and reference price. -/
theorem validate_order_pos {b : SimBroker} {o : Order} {p : ℚ}
    (h : (b.validate_order o p).1 = true) : 0 < o.qty ∧ 0 < p := by
  unfold SimBroker.validate_order at h
  by_cases hq : o.qty ≤ 0
  · rw [if_pos hq] at h; exact absurd h (by simp)
  · by_cases hp : p ≤ 0
    · rw [if_neg hq, if_pos hp] at h; exact absurd h (by simp)
    · exact ⟨not_le.mp hq, not_le.mp hp⟩

/-- A BUY validates exactly when the buffered cost fits in cash and the
projected concentration is within the limit. -/
theorem validate_buy_iff {b : SimBroker} {o : Order} {p : ℚ}
    (hside : o.side = .buy) (hq : 0 < o.qty) (hp : 0 < p)
    (hpv : 0 ≤ b.positions_value) :
    (b.validate_order o p).1 = true ↔
      ((o.qty : ℚ) * p * (1005 / 1000) ≤ b.cash ∧
        b.buy_concentration o p ≤ b.max_position_pct) := by
  have hq2 : (0 : ℚ) < (o.qty : ℚ) := by exact_mod_cast hq
  have hest : 0 < (o.qty : ℚ) * p * (1005 / 1000) := by positivity
  unfold SimBroker.validate_order
  rw [if_neg (not_le.mpr hq), if_neg (not_le.mpr hp), if_pos hside]
  dsimp only
  by_cases hc : b.cash < (o.qty : ℚ) * p * (1005 / 1000)
  · rw [if_pos hc]
    constructor
    · intro h; exact absurd h (by simp)
    · rintro ⟨h1, -⟩; exact absurd h1 (not_le.mpr hc)
  · rw [if_neg hc]
    have hcash : 0 < b.cash := lt_of_lt_of_le hest (not_lt.mp hc)
    have hequity : 0 < b.equity := by
      have h1 : b.equity = b.cash + b.positions_value := rfl
      rw [h1]; linarith
    rw [if_pos hequity, get_position_pyUpper]
    have hconc :
        (match b.get_position o.ticker with
          | some pos => (o.qty : ℚ) * p + pos.market_value
          | none => (o.qty : ℚ) * p) /
            (b.equity + (o.qty : ℚ) * p * (1005 / 1000)) =
          b.buy_concentration o p := rfl
    rw [hconc]
    by_cases hpc : b.max_position_pct < b.buy_concentration o p
    · rw [if_pos hpc]
      constructor
      · intro h; exact absurd h (by simp)
      · rintro ⟨-, h2⟩; exact absurd h2 (not_le.mpr hpc)
    · rw [if_neg hpc]
      exact ⟨fun _ => ⟨not_lt.mp hc, not_lt.mp hpc⟩, fun _ => rfl⟩

/-- When the cash check fails, the BUY rejection reason mentions cash. -/
theorem validate_buy_cash_msg {b : SimBroker} {o : Order} {p : ℚ}
    (hside : o.side = .buy) (hq : 0 < o.qty) (hp : 0 < p)
    (hc : b.cash < (o.qty : ℚ) * p * (1005 / 1000)) :
    containsSub "cash" (b.validate_order o p).2 := by
  unfold SimBroker.validate_order
  rw [if_neg (not_le.mpr hq), if_neg (not_le.mpr hp), if_pos hside]
  dsimp only
  rw [if_pos hc]
  exact containsSub_append_left _ (containsSub_append_left _
    (containsSub_append_left _ (by decide)))

/-- When the concentration check fails (cash check passed), the BUY
rejection reason mentions exceeding the limit. -/
theorem validate_buy_conc_msg {b : SimBroker} {o : Order} {p : ℚ}
    (hside : o.side = .buy) (hq : 0 < o.qty) (hp : 0 < p)
    (hpv : 0 ≤ b.positions_value)
    (hc : (o.qty : ℚ) * p * (1005 / 1000) ≤ b.cash)
    (hpc : b.max_position_pct < b.buy_concentration o p) :
    containsSub "exceed" (b.validate_order o p).2 := by
  have hq2 : (0 : ℚ) < (o.qty : ℚ) := by exact_mod_cast hq
  have hest : 0 < (o.qty : ℚ) * p * (1005 / 1000) := by positivity
  have hcash : 0 < b.cash := lt_of_lt_of_le hest hc
  have hequity : 0 < b.equity := by
    have h1 : b.equity = b.cash + b.positions_value := rfl
    rw [h1]; linarith
  unfold SimBroker.validate_order
  rw [if_neg (not_le.mpr hq), if_neg (not_le.mpr hp), if_pos hside]
  dsimp only
  rw [if_neg (not_lt.mpr hc), if_pos hequity, get_position_pyUpper]
  have hconc :
      (match b.get_position o.ticker with
        | some pos => (o.qty : ℚ) * p + pos.market_value
        | none => (o.qty : ℚ) * p) /
          (b.equity + (o.qty : ℚ) * p * (1005 / 1000)) =
        b.buy_concentration o p := rfl
  rw [hconc, if_pos hpc]
  exact containsSub_append_left _ (containsSub_append_left _
    (containsSub_append_left _ (by decide)))

/-- A SELL validates exactly when the held quantity covers the order. -/
theorem validate_sell_iff {b : SimBroker} {o : Order} {p : ℚ}
    (hside : o.side = .sell) (hq : 0 < o.qty) (hp : 0 < p) :
    (b.validate_order o p).1 = true ↔ o.qty ≤ b.held_qty o.ticker := by
  unfold SimBroker.validate_order
  rw [if_neg (not_le.mpr hq), if_neg (not_le.mpr hp),
    if_neg (by rw [hside]; exact side_sell_ne_buy), if_pos hside,
    get_position_pyUpper]
  unfold SimBroker.held_qty
  cases hgp : b.get_position o.ticker with
  | none =>
    dsimp only
    constructor
    · intro h; exact absurd h (by simp)
    · intro h; exact absurd h (not_le.mpr hq)
  | some pos =>
    dsimp only
    by_cases hlt : pos.qty < o.qty
    · rw [if_pos hlt]
      constructor
      · intro h; exact absurd h (by simp)
      · intro h; exact absurd h (not_le.mpr hlt)
    · rw [if_neg hlt]
      exact ⟨fun _ => not_lt.mp hlt, fun _ => rfl⟩

/-- When a SELL is rejected for lack of shares, the reason mentions
shares. -/
theorem validate_sell_msg {b : SimBroker} {o : Order} {p : ℚ}
    (hside : o.side = .sell) (hq : 0 < o.qty) (hp : 0 < p)
    (hheld : b.held_qty o.ticker < o.qty) :
    containsSub "shares" (b.validate_order o p).2 := by
  unfold SimBroker.validate_order
  rw [if_neg (not_le.mpr hq), if_neg (not_le.mpr hp),
    if_neg (by rw [hside]; exact side_sell_ne_buy), if_pos hside,
    get_position_pyUpper]
  unfold SimBroker.held_qty at hheld
  cases hgp : b.get_position o.ticker with
  | none =>
    dsimp only
    exact containsSub_append_left _ (containsSub_append_left _ (by decide))
  | some pos =>
    rw [hgp] at hheld
    dsimp only
    rw [if_pos hheld]
    exact containsSub_append_left _ (containsSub_append_left _
      (containsSub_append_left _ (by decide)))

/-- A nonpositive quantity or reference price is always rejected. -/
theorem validate_reject_nonpos {b : SimBroker} {o : Order} {p : ℚ}
    (h : o.qty ≤ 0 ∨ p ≤ 0) : (b.validate_order o p).1 = false := by
  unfold SimBroker.validate_order
  by_cases hq : o.qty ≤ 0
  · rw [if_pos hq]
  · rcases h with h | h
    · exact absurd h hq
    · rw [if_neg hq, if_pos h]

/-- C5: `validate_order` is a complete decision procedure.  For orders
with positive quantity and reference price: a BUY is accepted iff the
0.5-percent-buffered cost fits in cash and the projected concentration
(projected position value over current equity plus buffered cost) is
within `max_position_pct`, with rejection reasons containing "cash" or
"exceed" respectively; a SELL is accepted iff the held quantity covers
the order, with rejection reason containing "shares"; nonpositive
quantity or price is always rejected.  (The state hypothesis
`0 ≤ positions_value` is the ledger invariant maintained by the broker.) -/
theorem validate_order_complete (b : SimBroker) (hpv : 0 ≤ b.positions_value) :
    (∀ o : Order, ∀ p : ℚ, o.side = .buy → 1 ≤ o.qty → 0 < p →
      (((b.validate_order o p).1 = true ↔
          ((o.qty : ℚ) * p * (1005 / 1000) ≤ b.cash ∧
            b.buy_concentration o p ≤ b.max_position_pct)) ∧
        (b.cash < (o.qty : ℚ) * p * (1005 / 1000) →
          containsSub "cash" (b.validate_order o p).2) ∧
        ((o.qty : ℚ) * p * (1005 / 1000) ≤ b.cash →
          b.max_position_pct < b.buy_concentration o p →
          containsSub "exceed" (b.validate_order o p).2))) ∧
    (∀ o : Order, ∀ p : ℚ, o.side = .sell → 1 ≤ o.qty → 0 < p →
      (((b.validate_order o p).1 = true ↔ o.qty ≤ b.held_qty o.ticker) ∧
        (b.held_qty o.ticker < o.qty →
          containsSub "shares" (b.validate_order o p).2))) ∧
    (∀ o : Order, ∀ p : ℚ, o.qty ≤ 0 ∨ p ≤ 0 →
      (b.validate_order o p).1 = false) := by
  refine ⟨fun o p hside hq hp => ?_, fun o p hside hq hp => ?_, fun o p h => ?_⟩
  · have hq0 : 0 < o.qty := by omega
    exact ⟨validate_buy_iff hside hq0 hp hpv,
      fun hc => validate_buy_cash_msg hside hq0 hp hc,
      fun hc hpc => validate_buy_conc_msg hside hq0 hp hpv hc hpc⟩
  · have hq0 : 0 < o.qty := by omega
    exact ⟨validate_sell_iff hside hq0 hp,
      fun hheld => validate_sell_msg hside hq0 hp hheld⟩
  · exact validate_reject_nonpos h

/-- C5 witness: the SELL characterisation applied to the concrete broker
holding 10 AAPL and a full-close order, with the hypotheses discharged at
the concrete input. -/
theorem validate_order_complete_witness :
    0 ≤ brokerAliasEx.positions_value ∧
      ((brokerAliasEx.validate_order sellAllEx 110).1 = true ↔
        sellAllEx.qty ≤ brokerAliasEx.held_qty sellAllEx.ticker) := by
  have hpv : 0 ≤ brokerAliasEx.positions_value := by
    norm_num [brokerAliasEx, SimBroker.positions_value, SimBroker.get_snapshot,
      Snapshot.positions_value_at, hGet, Position.market_value,
      List.filterMap_cons, List.filterMap_nil]
  refine ⟨hpv, ?_⟩
  exact ((validate_order_complete brokerAliasEx hpv).2.1 sellAllEx 110 rfl
    (by norm_num [sellAllEx]) (by norm_num)).1

/-- C6 (amended): selling exactly the held quantity removes the position
from the ledger and adds `qty * (fill_price - avg_cost) - fees` to
`realized_pnl` (the code subtracts the transaction fees as well). -/
theorem sell_full_close (b b1 : SimBroker) (o : Order) (p : ℚ) (pos : Position)
    (f : Fill)
    (hkeys : (b.positions.map Prod.fst).Nodup)
    (hpos : b.get_position o.ticker = some pos)
    (hside : o.side = .sell) (hqty : o.qty = pos.qty)
    (_hq : 0 < o.qty) (_hp : 0 < p)
    (hex : b.execute_order o p = (b1, some f)) :
    b1.get_position o.ticker = none ∧
      b1.realized_pnl =
        b.realized_pnl + (o.qty : ℚ) * (f.fill_price - pos.avg_cost) - f.fees := by
  rcases Option.bind_eq_some.mp hpos with ⟨r, hr, hgr⟩
  unfold SimBroker.execute_order at hex
  by_cases hv : (b.validate_order o p).1 = true
  · rw [if_pos hv, if_neg (by rw [hside]; exact side_sell_ne_buy)] at hex
    obtain ⟨hb1, hf⟩ := Prod.mk.injEq .. ▸ hex
    have hff : f = b.fill_engine.fill_order o p := (Option.some.inj hf).symm
    rw [← hb1]
    unfold SimBroker.process_sell
    rw [hr]
    dsimp only
    rw [hgr]
    dsimp only
    have hfq : (b.fill_engine.fill_order o p).qty = o.qty := rfl
    have hzero : pos.qty - (b.fill_engine.fill_order o p).qty ≤ 0 := by
      rw [hfq, hqty]; omega
    rw [if_pos hzero]
    constructor
    · unfold SimBroker.get_position
      rw [pLookup_pErase_self hkeys]
      rfl
    · have hnot : (b.fill_engine.fill_order o p).notional =
          (o.qty : ℚ) * (b.fill_engine.fill_order o p).fill_price := rfl
      dsimp only
      rw [hff, hnot, hfq]
      ring
  · rw [if_neg hv] at hex
    exact absurd (congrArg Prod.snd hex) (by simp)

/-- C6 witness: the amended full-close property at the concrete broker
with 10 bps fees, selling 10 AAPL (avg cost 100) at reference price 110. -/
theorem sell_full_close_witness :
    (brokerFeeEx.positions.map Prod.fst).Nodup ∧
      brokerFeeEx.get_position "AAPL" =
        some { ticker := "AAPL", qty := 10, avg_cost := 100, current_price := 100 } ∧
      ((brokerFeeEx.execute_order sellAllEx 110).1).get_position "AAPL" = none ∧
      ((brokerFeeEx.execute_order sellAllEx 110).1).realized_pnl =
        brokerFeeEx.realized_pnl +
          (sellAllEx.qty : ℚ) *
            (((brokerFeeEx.execute_order sellAllEx 110).2.getD
                { ticker := "", side := .sell, qty := 0, fill_price := 0, fees := 0,
                  slippage := 0, notional := 0 }).fill_price - 100) -
          ((brokerFeeEx.execute_order sellAllEx 110).2.getD
              { ticker := "", side := .sell, qty := 0, fill_price := 0, fees := 0,
                slippage := 0, notional := 0 }).fees := by
  have hkeys : (brokerFeeEx.positions.map Prod.fst).Nodup := by
    norm_num [brokerFeeEx, brokerAliasEx]
  have hpos : brokerFeeEx.get_position "AAPL" =
      some { ticker := "AAPL", qty := 10, avg_cost := 100, current_price := 100 } := by
    norm_num [brokerFeeEx, brokerAliasEx, SimBroker.get_position, pLookup, hGet,
      pyUpper_AAPL]
  have hex : brokerFeeEx.execute_order sellAllEx 110 =
      ((brokerFeeEx.execute_order sellAllEx 110).1,
        (brokerFeeEx.execute_order sellAllEx 110).2) := rfl
  have hfill : (brokerFeeEx.execute_order sellAllEx 110).2 =
      some (brokerFeeEx.fill_engine.fill_order sellAllEx 110) := by
    norm_num [brokerFeeEx, brokerAliasEx, sellAllEx, SimBroker.execute_order,
      SimBroker.validate_order, SimBroker.get_position, pLookup, hGet,
      pyUpper_AAPL, side_sell_ne_buy]
  have hmain := sell_full_close brokerFeeEx (brokerFeeEx.execute_order sellAllEx 110).1
    sellAllEx 110 { ticker := "AAPL", qty := 10, avg_cost := 100, current_price := 100 }
    (brokerFeeEx.fill_engine.fill_order sellAllEx 110) hkeys hpos rfl rfl
    (by norm_num [sellAllEx]) (by norm_num) (by rw [hex, hfill])
  refine ⟨hkeys, hpos, hmain.1, ?_⟩
  rw [hfill]
  simpa using hmain.2

/-- The fill keeps the order quantity. -/
theorem fill_order_qty (e : FillEngine) (o : Order) (p : ℚ) :
    (e.fill_order o p).qty = o.qty := rfl

/-- C7: buy-averaging.  Buying a ticker not currently held opens a
position at the fill price; a second BUY of the same ticker re-averages to
`(q1 * fill1 + q2 * fill2) / (q1 + q2)` and accumulates the quantity. -/
theorem buy_averaging (b b1 b2 : SimBroker) (o1 o2 : Order) (p1 p2 : ℚ)
    (f1 f2 : Fill)
    (hheld : b.contains_ticker o1.ticker = false)
    (hs1 : o1.side = .buy) (hs2 : o2.side = .buy) (ht : o2.ticker = o1.ticker)
    (hex1 : b.execute_order o1 p1 = (b1, some f1))
    (hex2 : b1.execute_order o2 p2 = (b2, some f2)) :
    (∃ pos1, b1.get_position o1.ticker = some pos1 ∧ pos1.qty = o1.qty ∧
      pos1.avg_cost = f1.fill_price) ∧
    (∃ pos2, b2.get_position o1.ticker = some pos2 ∧
      pos2.qty = o1.qty + o2.qty ∧
      pos2.avg_cost =
        ((o1.qty : ℚ) * f1.fill_price + (o2.qty : ℚ) * f2.fill_price) /
          ((o1.qty : ℚ) + (o2.qty : ℚ))) := by
  have hnone : pLookup b.positions (pyUpper o1.ticker) = none := by
    unfold SimBroker.contains_ticker at hheld
    exact Option.not_isSome_iff_eq_none.mp (by simp [hheld])
  unfold SimBroker.execute_order at hex1 hex2
  by_cases hv1 : (b.validate_order o1 p1).1 = true
  case neg =>
    rw [if_neg hv1] at hex1
    exact absurd (congrArg Prod.snd hex1) (by simp)
  case pos =>
  rw [if_pos hv1, if_pos hs1] at hex1
  obtain ⟨hb1, hf1s⟩ := Prod.mk.injEq .. ▸ hex1
  have hf1 : f1 = b.fill_engine.fill_order o1 p1 := (Option.some.inj hf1s).symm
  unfold SimBroker.process_buy at hb1
  rw [hnone] at hb1
  dsimp only at hb1
  by_cases hv2 : (b1.validate_order o2 p2).1 = true
  case neg =>
    rw [if_neg hv2] at hex2
    exact absurd (congrArg Prod.snd hex2) (by simp)
  case pos =>
  rw [if_pos hv2, if_pos hs2] at hex2
  obtain ⟨hb2, hf2s⟩ := Prod.mk.injEq .. ▸ hex2
  have hf2 : f2 = b1.fill_engine.fill_order o2 p2 := (Option.some.inj hf2s).symm
  have hlook1 : pLookup b1.positions (pyUpper o1.ticker) = some b.next_ref := by
    rw [← hb1]
    exact pLookup_append_of_none hnone
  have hget1 : hGet b1.heap b.next_ref =
      some { ticker := pyUpper o1.ticker, qty := f1.qty,
             avg_cost := f1.fill_price, current_price := f1.fill_price } := by
    rw [← hb1, hf1]
    exact hGet_cons_self _ _ _
  constructor
  · refine ⟨{ ticker := pyUpper o1.ticker, qty := f1.qty,
              avg_cost := f1.fill_price, current_price := f1.fill_price }, ?_, ?_, ?_⟩
    · unfold SimBroker.get_position
      rw [hlook1, Option.some_bind, hget1]
    · rw [hf1, fill_order_qty]
    · rfl
  · unfold SimBroker.process_buy at hb2
    rw [ht] at hb2
    rw [hlook1] at hb2
    dsimp only at hb2
    rw [hget1] at hb2
    dsimp only at hb2
    have hlook2 : pLookup b2.positions (pyUpper o1.ticker) = some b.next_ref := by
      rw [← hb2]
      exact hlook1
    have hget2 : hGet b2.heap b.next_ref =
        some { ticker := pyUpper o1.ticker, qty := f1.qty + f2.qty,
               avg_cost := (f1.fill_price * f1.qty + f2.fill_price * f2.qty) /
                 ((f1.qty + f2.qty : ℤ) : ℚ),
               current_price := f2.fill_price } := by
      rw [← hb2, hf2]
      dsimp only
      exact hGet_hSet_self hget1
    refine ⟨{ ticker := pyUpper o1.ticker, qty := f1.qty + f2.qty,
              avg_cost := (f1.fill_price * f1.qty + f2.fill_price * f2.qty) /
                ((f1.qty + f2.qty : ℤ) : ℚ),
              current_price := f2.fill_price }, ?_, ?_, ?_⟩
    · unfold SimBroker.get_position
      rw [hlook2, Option.some_bind, hget2]
    · rw [hf1, hf2, fill_order_qty, fill_order_qty]
    · have hq1 : f1.qty = o1.qty := by rw [hf1]; exact fill_order_qty _ _ _
      have hq2 : f2.qty = o2.qty := by rw [hf2]; exact fill_order_qty _ _ _
      dsimp only
      rw [hq1, hq2]
      push_cast
      ring

/-- C7 witness: two concrete 10-share AAPL buys at 100 then 120 on a fresh
broker average to 110, via `buy_averaging`. -/
theorem buy_averaging_witness :
    brokerAvgEx.contains_ticker buyTenEx.ticker = false ∧
      (∃ pos2, brokerAvgEx2.get_position buyTenEx.ticker = some pos2 ∧
        pos2.qty = 20 ∧ pos2.avg_cost = 110) := by
  have hheld : brokerAvgEx.contains_ticker buyTenEx.ticker = false := by
    norm_num [brokerAvgEx, buyTenEx, SimBroker.contains_ticker, pLookup]
  have hex1 : brokerAvgEx.execute_order buyTenEx 100 =
      (brokerAvgEx1, some (brokerAvgEx.fill_engine.fill_order buyTenEx 100)) := by
    norm_num [brokerAvgEx, brokerAvgEx1, buyTenEx, SimBroker.execute_order,
      SimBroker.validate_order, SimBroker.process_buy, SimBroker.get_position,
      SimBroker.equity, SimBroker.get_snapshot, Snapshot.equity_at,
      Snapshot.positions_value_at, FillEngine.fill_order,
      FillEngine.compute_fill_price, FillEngine.compute_slippage,
      FillEngine.compute_fees, pLookup, hGet, hSet, pyUpper_AAPL,
      side_buy_ne_sell, List.filterMap_cons, List.filterMap_nil]
  have hex2 : brokerAvgEx1.execute_order buyTenEx 120 =
      (brokerAvgEx2, some (brokerAvgEx1.fill_engine.fill_order buyTenEx 120)) := by
    norm_num [brokerAvgEx1, brokerAvgEx2, buyTenEx, SimBroker.execute_order,
      SimBroker.validate_order, SimBroker.process_buy, SimBroker.get_position,
      SimBroker.equity, SimBroker.get_snapshot, Snapshot.equity_at,
      Snapshot.positions_value_at, Position.market_value, FillEngine.fill_order,
      FillEngine.compute_fill_price, FillEngine.compute_slippage,
      FillEngine.compute_fees, pLookup, hGet, hSet, pyUpper_AAPL,
      side_buy_ne_sell, List.filterMap_cons, List.filterMap_nil]
  have hmain := buy_averaging brokerAvgEx brokerAvgEx1 brokerAvgEx2 buyTenEx buyTenEx
    100 120 (brokerAvgEx.fill_engine.fill_order buyTenEx 100)
    (brokerAvgEx1.fill_engine.fill_order buyTenEx 120) hheld rfl rfl rfl hex1 hex2
  rcases hmain.2 with ⟨pos2, h1, h2, h3⟩
  refine ⟨hheld, pos2, h1, ?_, ?_⟩
  · rw [h2]; norm_num [buyTenEx]
  · rw [h3]
    norm_num [buyTenEx, brokerAvgEx, brokerAvgEx1, FillEngine.fill_order,
      FillEngine.compute_fill_price, FillEngine.compute_slippage]

/-! ### Toolkit: execute_order facts -/

/-- A validated BUY fits the buffered estimate into cash. -/
theorem validate_buy_cash_of_true {b : SimBroker} {o : Order} {p : ℚ}
    (hside : o.side = .buy) (hv : (b.validate_order o p).1 = true) :
    (o.qty : ℚ) * p * (1005 / 1000) ≤ b.cash := by
  obtain ⟨hq, hp⟩ := validate_order_pos hv
  unfold SimBroker.validate_order at hv
  rw [if_neg (not_le.mpr hq), if_neg (not_le.mpr hp), if_pos hside] at hv
  dsimp only at hv
  by_cases hc : b.cash < (o.qty : ℚ) * p * (1005 / 1000)
  · rw [if_pos hc] at hv; exact absurd hv (by simp)
  · exact not_lt.mp hc

/-- A validated SELL exhibits the held position covering the order. -/
theorem validate_sell_held {b : SimBroker} {o : Order} {p : ℚ}
    (hside : o.side = .sell) (hv : (b.validate_order o p).1 = true) :
    ∃ r pos, pLookup b.positions (pyUpper o.ticker) = some r ∧
      hGet b.heap r = some pos ∧ o.qty ≤ pos.qty := by
  obtain ⟨hq, hp⟩ := validate_order_pos hv
  have h := (validate_sell_iff hside hq hp).mp hv
  unfold SimBroker.held_qty at h
  cases hgp : b.get_position o.ticker with
  | none =>
    rw [hgp] at h
    dsimp only at h
    omega
  | some pos =>
    rw [hgp] at h
    rcases Option.bind_eq_some.mp hgp with ⟨r, hr, hgr⟩
    exact ⟨r, pos, hr, hgr, h⟩

/-- The fill price of a BUY includes the slippage markup. -/
theorem fill_order_buy_price (e : FillEngine) {o : Order} (p : ℚ)
    (h : o.side = .buy) :
    (e.fill_order o p).fill_price = p * (1 + e.slippage_bps / 10000) := by
  unfold FillEngine.fill_order FillEngine.compute_fill_price FillEngine.compute_slippage
  rw [h]
  dsimp only
  ring

/-- The fill price of a SELL includes the slippage markdown. -/
theorem fill_order_sell_price (e : FillEngine) {o : Order} (p : ℚ)
    (h : o.side = .sell) :
    (e.fill_order o p).fill_price = p * (1 - e.slippage_bps / 10000) := by
  unfold FillEngine.fill_order FillEngine.compute_fill_price FillEngine.compute_slippage
  rw [h]
  dsimp only
  ring

/-- The notional of a fill is quantity times fill price. -/
theorem fill_order_notional (e : FillEngine) (o : Order) (p : ℚ) :
    (e.fill_order o p).notional = (o.qty : ℚ) * (e.fill_order o p).fill_price := rfl

/-- The fees of a fill are the fee fraction of the notional. -/
theorem fill_order_fees (e : FillEngine) (o : Order) (p : ℚ) :
    (e.fill_order o p).fees = (e.fill_order o p).notional * (e.fee_bps / 10000) := rfl

/-- Under `FeeOk` the slippage fraction is at most half a percent. -/
theorem feeOk_slip_le {e : FillEngine} (h : FeeOk e) :
    e.slippage_bps / 10000 ≤ 5 / 1000 := by
  obtain ⟨h1, h2, h3⟩ := h
  have hs : 0 ≤ e.slippage_bps / 10000 := by positivity
  have hf : 0 ≤ e.fee_bps / 10000 := by positivity
  nlinarith

/-- Under `FeeOk` the fee fraction is at most half a percent. -/
theorem feeOk_fee_le {e : FillEngine} (h : FeeOk e) :
    e.fee_bps / 10000 ≤ 5 / 1000 := by
  obtain ⟨h1, h2, h3⟩ := h
  have hs : 0 ≤ e.slippage_bps / 10000 := by positivity
  have hf : 0 ≤ e.fee_bps / 10000 := by positivity
  nlinarith

/-- C3 (amended): for slippage/fee configurations covered by the 0.5
percent validation buffer (which includes the default 10 bps each), every
`execute_order` call preserves the ledger invariants: cash stays
nonnegative and every stored position keeps a strictly positive quantity
(plus the representation invariants of the dict/heap encoding). -/
theorem execute_order_preserves_wf (b : SimBroker) (o : Order) (p : ℚ)
    (hfee : FeeOk b.fill_engine) (hwf : LedgerWF b) :
    LedgerWF (b.execute_order o p).1 := by
  unfold SimBroker.execute_order
  by_cases hv : (b.validate_order o p).1 = true
  case neg =>
    rw [if_neg hv]
    exact hwf
  case pos =>
  rw [if_pos hv]
  obtain ⟨hq, hp⟩ := validate_order_pos hv
  have hs5 := feeOk_slip_le hfee
  have hf5 := feeOk_fee_le hfee
  obtain ⟨hs0, hf0, hsf⟩ := hfee
  have hs0q : (0 : ℚ) ≤ b.fill_engine.slippage_bps / 10000 := by positivity
  have hf0q : (0 : ℚ) ≤ b.fill_engine.fee_bps / 10000 := by positivity
  have hq0 : (0 : ℚ) < (o.qty : ℚ) := by exact_mod_cast hq
  by_cases hside : o.side = .buy
  case pos =>
    rw [if_pos hside]
    dsimp only
    have hcash := validate_buy_cash_of_true hside hv
    have hfp : (b.fill_engine.fill_order o p).fill_price =
        p * (1 + b.fill_engine.slippage_bps / 10000) :=
      fill_order_buy_price _ _ hside
    have hfp0 : 0 ≤ (b.fill_engine.fill_order o p).fill_price := by
      rw [hfp]; positivity
    have hcost : (b.fill_engine.fill_order o p).notional +
        (b.fill_engine.fill_order o p).fees ≤ b.cash := by
      rw [fill_order_fees, fill_order_notional, hfp]
      have h1 : (o.qty : ℚ) * p *
            ((1 + b.fill_engine.slippage_bps / 10000) *
              (1 + b.fill_engine.fee_bps / 10000)) ≤
          (o.qty : ℚ) * p * (1005 / 1000) :=
        mul_le_mul_of_nonneg_left hsf (by positivity)
      nlinarith
    unfold SimBroker.process_buy
    cases hlt : pLookup b.positions (pyUpper o.ticker) with
    | some r =>
      obtain ⟨pos, hgr, hqp, ha0, hp0⟩ := hwf.pos_ok _ (pLookup_mem hlt)
      dsimp only at hgr
      dsimp only
      rw [hgr]
      dsimp only
      refine ⟨?_, hwf.keys_nodup, hwf.refs_nodup, ?_, ?_, ?_⟩
      · dsimp only
        linarith
      · dsimp only
        rw [hSet_map_fst]
        exact hwf.heap_nodup
      · dsimp only
        intro k hk
        rw [hSet_map_fst] at hk
        exact hwf.heap_bounded k hk
      · dsimp only
        intro e he
        by_cases her : e.2 = r
        · refine ⟨_, by rw [her]; exact hGet_hSet_self hgr, ?_, ?_, ?_⟩
          · dsimp only
            rw [fill_order_qty]
            omega
          · dsimp only
            rw [fill_order_qty]
            have hposq : (0 : ℚ) ≤ (pos.qty : ℚ) := by exact_mod_cast le_of_lt hqp
            have hden : (0 : ℚ) ≤ ((pos.qty + o.qty : ℤ) : ℚ) := by
              exact_mod_cast le_of_lt (by omega : (0 : ℤ) < pos.qty + o.qty)
            apply div_nonneg _ hden
            nlinarith
          · exact hfp0
        · obtain ⟨q2, hgq, hh⟩ := hwf.pos_ok e he
          exact ⟨q2, by rw [hGet_hSet_ne her]; exact hgq, hh⟩
    | none =>
      dsimp only
      have hfresh : ∀ e ∈ b.positions, e.2 ≠ b.next_ref := by
        intro e he hcon
        obtain ⟨q2, hgq, -⟩ := hwf.pos_ok e he
        rw [hcon] at hgq
        have := hwf.heap_bounded b.next_ref
          (List.mem_map_of_mem Prod.fst (hGet_mem hgq))
        omega
      refine ⟨?_, ?_, ?_, ?_, ?_, ?_⟩
      · dsimp only
        linarith
      · dsimp only
        rw [List.map_append]
        refine List.Nodup.append hwf.keys_nodup (by simp) ?_
        intro a ha
        simp only [List.map_cons, List.map_nil, List.mem_singleton]
        intro hEq
        obtain ⟨e, he, hfst⟩ := List.mem_map.mp ha
        exact (pLookup_eq_none.mp hlt e he) (by rw [← hEq, hfst])
      · dsimp only
        rw [List.map_append]
        refine List.Nodup.append hwf.refs_nodup (by simp) ?_
        intro a ha
        simp only [List.map_cons, List.map_nil, List.mem_singleton]
        intro hEq
        obtain ⟨e, he, hsnd⟩ := List.mem_map.mp ha
        exact hfresh e he (by rw [hsnd, hEq])
      · dsimp only
        rw [List.map_cons]
        refine List.Nodup.cons ?_ hwf.heap_nodup
        intro hmem
        have := hwf.heap_bounded b.next_ref hmem
        omega
      · dsimp only
        intro k hk
        rw [List.map_cons] at hk
        rcases List.mem_cons.mp hk with h1 | h1
        · omega
        · have := hwf.heap_bounded k h1
          omega
      · dsimp only
        intro e he
        rcases List.mem_append.mp he with h1 | h1
        · obtain ⟨q2, hgq, hh⟩ := hwf.pos_ok e h1
          refine ⟨q2, ?_, hh⟩
          rw [hGet_cons_ne _ _ (fun hcon => hfresh e h1 hcon.symm)]
          exact hgq
        · have he2 : e = (pyUpper o.ticker, b.next_ref) := by
            simpa using h1
          refine ⟨_, by rw [he2]; exact hGet_cons_self _ _ _, ?_, ?_, ?_⟩
          · dsimp only
            rw [fill_order_qty]
            omega
          · exact hfp0
          · exact hfp0
  case neg =>
    have hsell : o.side = .sell := by
      cases hso : o.side
      · exact absurd hso hside
      · rfl
    rw [if_neg hside]
    dsimp only
    obtain ⟨r, pos, hr, hgr, hple⟩ := validate_sell_held hsell hv
    obtain ⟨pos2, hgr2, hqp, ha0, hp0⟩ := hwf.pos_ok _ (pLookup_mem hr)
    dsimp only at hgr2
    rw [hgr] at hgr2
    obtain rfl : pos = pos2 := Option.some.inj hgr2
    have hfp : (b.fill_engine.fill_order o p).fill_price =
        p * (1 - b.fill_engine.slippage_bps / 10000) :=
      fill_order_sell_price _ _ hsell
    have hfp0 : 0 ≤ (b.fill_engine.fill_order o p).fill_price := by
      rw [hfp]
      have h1 : (0 : ℚ) ≤ 1 - b.fill_engine.slippage_bps / 10000 := by linarith
      exact mul_nonneg (le_of_lt hp) h1
    have hproc : 0 ≤ (b.fill_engine.fill_order o p).notional -
        (b.fill_engine.fill_order o p).fees := by
      rw [fill_order_fees, fill_order_notional]
      nlinarith [mul_nonneg (mul_nonneg (le_of_lt hq0) hfp0)
        (by linarith : (0 : ℚ) ≤ 1 - b.fill_engine.fee_bps / 10000)]
    unfold SimBroker.process_sell
    rw [hr]
    dsimp only
    rw [hgr]
    dsimp only
    have hrefs_ne : ∀ e ∈ b.positions, e.1 ≠ pyUpper o.ticker → e.2 ≠ r := by
      intro e he hne hcon
      have hmem : (pyUpper o.ticker, r) ∈ b.positions := pLookup_mem hr
      have heq : e = (pyUpper o.ticker, r) :=
        List.inj_on_of_nodup_map hwf.refs_nodup he hmem hcon
      exact hne (by rw [heq])
    by_cases hz : pos.qty - (b.fill_engine.fill_order o p).qty ≤ 0
    · rw [if_pos hz]
      refine ⟨?_, ?_, ?_, ?_, ?_, ?_⟩
      · dsimp only
        have := hwf.cash_nonneg
        linarith
      · dsimp only
        exact hwf.keys_nodup.sublist (List.Sublist.map _ (pErase_sublist _ _))
      · dsimp only
        exact hwf.refs_nodup.sublist (List.Sublist.map _ (pErase_sublist _ _))
      · dsimp only
        rw [hSet_map_fst]
        exact hwf.heap_nodup
      · dsimp only
        intro k hk
        rw [hSet_map_fst] at hk
        exact hwf.heap_bounded k hk
      · dsimp only
        intro e he
        obtain ⟨hmem, hne⟩ := mem_pErase hwf.keys_nodup he
        obtain ⟨q2, hgq, hh⟩ := hwf.pos_ok e hmem
        exact ⟨q2, by rw [hGet_hSet_ne (hrefs_ne e hmem hne)]; exact hgq, hh⟩
    · rw [if_neg hz]
      rw [fill_order_qty] at hz
      refine ⟨?_, hwf.keys_nodup, hwf.refs_nodup, ?_, ?_, ?_⟩
      · dsimp only
        have := hwf.cash_nonneg
        linarith
      · dsimp only
        rw [hSet_map_fst]
        exact hwf.heap_nodup
      · dsimp only
        intro k hk
        rw [hSet_map_fst] at hk
        exact hwf.heap_bounded k hk
      · dsimp only
        intro e he
        by_cases her : e.2 = r
        · refine ⟨_, by rw [her]; exact hGet_hSet_self hgr, ?_, ?_, ?_⟩
          · dsimp only
            rw [fill_order_qty]
            omega
          · exact ha0
          · exact hfp0
        · obtain ⟨q2, hgq, hh⟩ := hwf.pos_ok e he
          exact ⟨q2, by rw [hGet_hSet_ne her]; exact hgq, hh⟩

/-! ### Orchestrator theorems -/

/-- Closed form of the three-attempt retry loop. -/
theorem invoke_with_retry_eq (ct : String) (f : Nat → AgentResultE α) :
    invoke_with_retry ct f =
      (if (f 0).success then ((f 0), [toCallRec ct (f 0)])
       else if (f 1).success then ((f 1), [toCallRec ct (f 0), toCallRec ct (f 1)])
       else ((f 2), [toCallRec ct (f 0), toCallRec ct (f 1), toCallRec ct (f 2)])) := by
  by_cases h0 : (f 0).success <;> by_cases h1 : (f 1).success <;>
    simp [invoke_with_retry, retrySeq, toCallRec, h0, h1]

/-- C8 (amended): a repair call (call type "repair") is logged iff all
three attempts of the stage failed, regardless of whether any raw
response was non-empty; and when repair itself fails (LLM failure or
parse failure) the stage yields `none` with the recorded error string of
the last attempt (and does not raise). -/
theorem repair_iff_all_attempts_fail {α : Type} (ct fp : String)
    (hct : ct ≠ "repair") (se : StageEnv α) :
    ((run_stage ct fp se).2.1.countP (fun c => c.call_type == "repair") =
      if (se.attempts 0).success = false ∧ (se.attempts 1).success = false ∧
          (se.attempts 2).success = false then 1 else 0) ∧
    ((se.attempts 0).success = false → (se.attempts 1).success = false →
      (se.attempts 2).success = false →
      se.repair.llm_success = false ∨ se.repair.parsed = none →
      (run_stage ct fp se).1 = none ∧
        (run_stage ct fp se).2.2 =
          [fp ++ (se.attempts 2).error.getD "Unknown error"]) := by
  have hbeq : (ct == "repair") = false := by
    simp only [beq_eq_false_iff_ne, ne_eq]
    exact hct
  by_cases h0 : (se.attempts 0).success <;> by_cases h1 : (se.attempts 1).success <;>
    by_cases h2 : (se.attempts 2).success
  all_goals
    constructor
  all_goals
    simp [run_stage, invoke_with_retry_eq, repair_json_parse, toCallRec,
      h0, h1, h2, hbeq, List.countP_cons, List.countP_nil]
  all_goals
    rintro (h | h) <;> simp [h]

/-- C8 witness: the amended characterisation at a concrete strategist
stage whose three attempts all fail with empty raw responses: exactly one
repair call is logged. -/
theorem repair_iff_all_attempts_fail_witness :
    (("strategist" : String) ≠ "repair") ∧
      ((run_stage "strategist" "Strategist call failed: " stageEmptyFail).2.1.countP
          (fun c => c.call_type == "repair") =
        if (stageEmptyFail.attempts 0).success = false ∧
            (stageEmptyFail.attempts 1).success = false ∧
            (stageEmptyFail.attempts 2).success = false then 1 else 0) :=
  ⟨by decide,
    (repair_iff_all_attempts_fail "strategist" "Strategist call failed: "
      (by decide) stageEmptyFail).1⟩

/-- C8 counterexample (to the claim as stated): all three attempts of the
strategist stage fail with an EMPTY raw response, yet a repair call is
still issued (logged with call type "repair") — the code never checks for
a non-empty raw response before repairing. -/
theorem repair_called_on_empty_raw :
    (stageEmptyFail.attempts 0).success = false ∧
      (stageEmptyFail.attempts 0).raw_response = "" ∧
      (stageEmptyFail.attempts 1).success = false ∧
      (stageEmptyFail.attempts 1).raw_response = "" ∧
      (stageEmptyFail.attempts 2).success = false ∧
      (stageEmptyFail.attempts 2).raw_response = "" ∧
      (run_stage "strategist" "Strategist call failed: " stageEmptyFail).2.1.countP
          (fun c => c.call_type == "repair") = 1 := by
  refine ⟨rfl, rfl, rfl, rfl, rfl, rfl, ?_⟩
  rfl

/-- C4: when a run log already exists for (competitor, date, session
type) and `dry_run` is false, the pipeline returns the skip result before
any LLM call, performs no storage write (no trade, no snapshot, no run
log, no counter increment), and leaves the broker untouched. -/
theorem run_competitor_skips_when_already_ran (env : RunEnv) (broker : SimBroker)
    (h : env.has_run_today = true) :
    run_competitor env broker false =
      (CompetitorOutcome.skipped "already_ran", ([] : List LLMCallRec),
        ([] : List StoreEvent), broker) := by
  unfold run_competitor run_competitor_inner
  rw [if_pos ⟨rfl, h⟩]

/-- C4 witness: the skip at a concrete environment with an existing run
log. -/
theorem run_competitor_skips_witness :
    envAlreadyRan.has_run_today = true ∧
      run_competitor envAlreadyRan brokerAvgEx false =
        (CompetitorOutcome.skipped "already_ran", ([] : List LLMCallRec),
          ([] : List StoreEvent), brokerAvgEx) :=
  ⟨rfl, run_competitor_skips_when_already_ran envAlreadyRan brokerAvgEx rfl⟩

/-- C1: the code contradicts the claim.  On the failing input — the
strategist stage succeeded, but the budget re-check before RiskGuard
fails (100 + 1 > 100) — the pipeline does NOT proceed with a nil trade
plan: line 477 reads the unassigned local `risk_guard_result`, the
resulting `UnboundLocalError` escapes `_run_competitor`, and `run_session`
records the `{error: message}` shape for the competitor. -/
theorem budget_recheck_crashes_pipeline :
    run_competitor envBudget brokerAvgEx false =
      (CompetitorOutcome.errorDict unboundMsg, ([] : List LLMCallRec),
        ([] : List StoreEvent), brokerAvgEx) := by
  rfl

/-! ### Gate theorems -/

/-- If some configured competitor has run today, the backstop loop finds
one. -/
theorem check_already_ran_of_any (env : GateEnv) (stype : String)
    (h : env.competitors.any (fun c => env.has_run_today c stype) = true) :
    check_already_ran env stype ≠ none := by
  unfold check_already_ran
  revert h
  induction env.competitors with
  | nil => intro h; simp at h
  | cons c rest ih =>
    intro h
    rw [List.any_cons] at h
    rw [List.findSome?_cons]
    by_cases hc : env.has_run_today c stype
    · simp [hc]
    · simp only [hc, Bool.false_or] at h
      simp only [hc, if_false]
      exact ih h

/-- A gate that answers eligible found no prior run for any competitor. -/
theorem should_run_true_no_prior (env : GateEnv) (mkt : MarketConf)
    (stype : String) (now : Int) (msg : String)
    (hres : should_run env mkt stype now = some (true, msg)) :
    check_already_ran env stype = none := by
  cases hca : check_already_ran env stype with
  | none => rfl
  | some m =>
    exfalso
    unfold should_run at hres
    by_cases h1 : mkt.mtype ≠ "crypto" ∧ env.is_trading_day = false
    · rw [if_pos h1] at hres
      simp at hres
    · rw [if_neg h1] at hres
      by_cases h2 : env.session_times = none ∧ mkt.mtype ≠ "crypto"
      · rw [if_pos h2] at hres
        simp at hres
      · rw [if_neg h2] at hres
        by_cases h3 : mkt.mtype = "crypto"
        · rw [if_pos h3] at hres
          unfold check_crypto_session at hres
          dsimp only at hres
          revert hres
          cases mkt.session_times_cfg.get?
              (if mkt.session_times_cfg.length ≤ (if stype = "OPEN" then 0 else 1)
               then 0 else if stype = "OPEN" then 0 else 1) with
          | none => intro hres; simp at hres
          | some target =>
            intro hres
            dsimp only at hres
            by_cases hw : 10 < (now - target).natAbs
            · rw [if_pos hw] at hres
              simp at hres
            · rw [if_neg hw] at hres
              rw [hca] at hres
              simp at hres
        · rw [if_neg h3] at hres
          cases hst : env.session_times with
          | none =>
            rw [hst] at hres
            simp at hres
          | some oc =>
            obtain ⟨open_time, close_time⟩ := oc
            rw [hst] at hres
            dsimp only at hres
            by_cases hso : stype = "OPEN"
            · rw [if_pos hso] at hres
              by_cases hw : ¬ (open_time - 5 ≤ now ∧ now ≤ open_time + 30)
              · rw [if_pos hw] at hres
                simp at hres
              · rw [if_neg hw] at hres
                rw [hca] at hres
                simp at hres
            · rw [if_neg hso] at hres
              by_cases hsc : stype = "CLOSE"
              · rw [if_pos hsc] at hres
                by_cases hw : ¬ (close_time - 30 ≤ now ∧ now ≤ close_time + 5)
                · rw [if_pos hw] at hres
                  simp at hres
                · rw [if_neg hw] at hres
                  rw [hca] at hres
                  simp at hres
              · rw [if_neg hsc] at hres
                rw [hca] at hres
                simp at hres

/-- C10: `should_run` takes no competitor parameter, and whenever at
least one configured competitor already has a run log for (today, session
type), the gate answers not-eligible — one competitor having run blocks
the session for every competitor in the configuration. -/
theorem gate_blocks_all_when_any_ran (env : GateEnv) (mkt : MarketConf)
    (stype : String) (now : Int) (r : Bool × String)
    (hres : should_run env mkt stype now = some r)
    (hran : env.competitors.any (fun c => env.has_run_today c stype) = true) :
    r.1 = false := by
  by_contra hr
  obtain ⟨b, m⟩ := r
  simp only at hr
  have hb : b = true := by
    cases b
    · exact absurd rfl hr
    · rfl
  subst hb
  exact check_already_ran_of_any env stype hran
    (should_run_true_no_prior env mkt stype now m hres)

/-- C10 witness: with the single configured competitor having run, the
gate inside the OPEN window answers not-eligible. -/
theorem gate_blocks_all_witness :
    should_run gateEnvRanEx equityMktEx "OPEN" 568 =
        some (false, "Already ran OPEN for comp1 today") ∧
      gateEnvRanEx.competitors.any
        (fun c => gateEnvRanEx.has_run_today c "OPEN") = true ∧
      (false, "Already ran OPEN for comp1 today").1 = false :=
  ⟨rfl, rfl,
    gate_blocks_all_when_any_ran gateEnvRanEx equityMktEx "OPEN" 568
      (false, "Already ran OPEN for comp1 today") rfl rfl⟩

/-- C9 counterexample: at 09:20 (560), with open 09:30 (570), a trading
day, and no prior run, `should_run` answers not-eligible ("Outside OPEN
window"), whereas the claim asserts (true, "OK") — 09:20 lies outside the
[open - 5, open + 30] window the code implements. -/
theorem gate_0920_not_eligible :
    should_run gateEnvEx equityMktEx "OPEN" 560 =
      some (false, "Outside OPEN window (" ++ toString (570 : Int) ++ ")") := by
  rfl

/-- C9 (amended): an OPEN session is eligible only inside the window
[open - 5, open + 30]; concretely with open 09:30, the gate is eligible
at 09:28 (568) but not at 09:20 (560) nor at 08:00 (480). -/
theorem gate_open_window :
    (∀ (env : GateEnv) (mkt : MarketConf) (now open_t close_t : Int),
      mkt.mtype ≠ "crypto" → env.session_times = some (open_t, close_t) →
      should_run env mkt "OPEN" now = some (true, "OK") →
      open_t - 5 ≤ now ∧ now ≤ open_t + 30) ∧
    should_run gateEnvEx equityMktEx "OPEN" 568 = some (true, "OK") ∧
    should_run gateEnvEx equityMktEx "OPEN" 560 ≠ some (true, "OK") ∧
    should_run gateEnvEx equityMktEx "OPEN" 480 ≠ some (true, "OK") := by
  refine ⟨?_, rfl, by decide, by decide⟩
  intro env mkt now open_t close_t hcrypto hst hres
  unfold should_run at hres
  rw [hst] at hres
  by_cases hday : env.is_trading_day = false
  · rw [if_pos ⟨hcrypto, hday⟩] at hres
    exact absurd hres (by simp)
  · rw [if_neg (fun hc => hday hc.2)] at hres
    rw [if_neg (fun hc => Option.noConfusion hc.1)] at hres
    rw [if_neg hcrypto] at hres
    dsimp only at hres
    rw [if_pos rfl] at hres
    by_cases hw : open_t - 5 ≤ now ∧ now ≤ open_t + 30
    · exact hw
    · rw [if_pos hw] at hres
      exact absurd hres (by simp)

/-- C9 witness: the general window-necessity applied at the concrete
gate environment and 09:28. -/
theorem gate_open_window_witness :
    equityMktEx.mtype ≠ "crypto" ∧
      gateEnvEx.session_times = some (570, 960) ∧
      ((570 : Int) - 5 ≤ 568 ∧ (568 : Int) ≤ 570 + 30) :=
  ⟨by decide, rfl,
    gate_open_window.1 gateEnvEx equityMktEx 568 570 960 (by decide) rfl
      gate_open_window.2.1⟩

/-- C3 witness: the preservation theorem applied to the fresh broker with
the default-covered zero-fee configuration and a concrete BUY. -/
theorem execute_order_preserves_wf_witness :
    FeeOk brokerAvgEx.fill_engine ∧ LedgerWF brokerAvgEx ∧
      LedgerWF (brokerAvgEx.execute_order buyTenEx 100).1 := by
  have hfee : FeeOk brokerAvgEx.fill_engine := by
    refine ⟨by norm_num [brokerAvgEx], by norm_num [brokerAvgEx], ?_⟩
    norm_num [brokerAvgEx]
  have hwf : LedgerWF brokerAvgEx := by
    refine ⟨by norm_num [brokerAvgEx], ?_, ?_, ?_, ?_, ?_⟩ <;>
      simp [brokerAvgEx]
  exact ⟨hfee, hwf, execute_order_preserves_wf brokerAvgEx buyTenEx 100 hfee hwf⟩

end LLMTrading
